import Mathlib

/-!
Verification development for the space-golf repository.

The cube-sphere mesh generator (src/planet.rs) is embedded with exact
rational arithmetic for the cube-face grid points and real arithmetic
for the unit-sphere normalization step.  The gravity glue systems
(src/main.rs: sync_particle_set, accelerate_particles, place_body) are
embedded as pure state-passing functions.  u32 index arithmetic never
overflows at the resolutions involved, so indices are modelled as Nat.
-/

namespace SpaceGolf

/-- A 3D vector with exact rational components, standing in for glam Vec3. -/
structure Vec3 where
  x : ℚ
  y : ℚ
  z : ℚ
deriving DecidableEq, Repr

namespace Vec3

/-- Component permutation, as in Vec3Swizzles yzx used for axis_a. -/
def yzx (v : Vec3) : Vec3 := ⟨v.y, v.z, v.x⟩

/-- Cross product, as in glam Vec3 cross, used for axis_b. -/
def cross (v w : Vec3) : Vec3 :=
  ⟨v.y * w.z - v.z * w.y, v.z * w.x - v.x * w.z, v.x * w.y - v.y * w.x⟩

/-- Projection to the first two components, as in Vec3Swizzles xy. -/
def xy (v : Vec3) : ℚ × ℚ := (v.x, v.y)

/-- Squared length, dot of the vector with itself. -/
def sqLen (v : Vec3) : ℚ := v.x * v.x + v.y * v.y + v.z * v.z

/-- Vec3 Y constant. -/
def UnitY : Vec3 := ⟨0, 1, 0⟩

/-- Vec3 NEG_Y constant. -/
def NegY : Vec3 := ⟨0, -1, 0⟩

/-- Vec3 NEG_X constant. -/
def NegX : Vec3 := ⟨-1, 0, 0⟩

/-- Vec3 X constant. -/
def UnitX : Vec3 := ⟨1, 0, 0⟩

/-- Vec3 Z constant. -/
def UnitZ : Vec3 := ⟨0, 0, 1⟩

/-- Vec3 NEG_Z constant. -/
def NegZ : Vec3 := ⟨0, 0, -1⟩

end Vec3

instance : Add Vec3 := ⟨fun v w => ⟨v.x + w.x, v.y + w.y, v.z + w.z⟩⟩

instance : Sub Vec3 := ⟨fun v w => ⟨v.x - w.x, v.y - w.y, v.z - w.z⟩⟩

instance : SMul ℚ Vec3 := ⟨fun a v => ⟨a * v.x, a * v.y, a * v.z⟩⟩

/-- A 3D vector with real components, for quantities downstream of the
floating-point normalize call (modelled as exact real arithmetic). -/
structure Vec3R where
  x : ℝ
  y : ℝ
  z : ℝ

/-- Normalization onto the unit sphere: divide each component by the
length, the square root of the squared length (point_on_unit_cube.normalize()). -/
noncomputable def normalizeR (v : Vec3) : Vec3R :=
  ⟨(v.x : ℝ) / Real.sqrt ((Vec3.sqLen v : ℚ) : ℝ),
   (v.y : ℝ) / Real.sqrt ((Vec3.sqLen v : ℚ) : ℝ),
   (v.z : ℝ) / Real.sqrt ((Vec3.sqLen v : ℚ) : ℝ)⟩

/-- Euclidean length of a real vector. -/
noncomputable def lenR (w : Vec3R) : ℝ := Real.sqrt (w.x ^ 2 + w.y ^ 2 + w.z ^ 2)

/-- The six face directions, in the order listed in From PlanetMesh for Mesh:
Y, NEG_Y, NEG_X, X, Z, NEG_Z. -/
def directions : List Vec3 :=
  [Vec3.UnitY, Vec3.NegY, Vec3.NegX, Vec3.UnitX, Vec3.UnitZ, Vec3.NegZ]

/-- The grid point on the unit cube for grid cell (x, y) of the face with
outward direction localUp, exactly as computed in face():
local_up + (percent_x - 0.5) * 2.0 * axis_a + (percent_y - 0.5) * 2.0 * axis_b
with axis_a = local_up.yzx(), axis_b = local_up.cross(axis_a) and
percent = index / (resolution - 1) (u32 subtraction, then cast). -/
def pointOnUnitCube (resolution : ℕ) (localUp : Vec3) (x y : ℕ) : Vec3 :=
  let axis_a := localUp.yzx
  let axis_b := localUp.cross axis_a
  let percent_x : ℚ := (x : ℚ) / ((resolution - 1 : ℕ) : ℚ)
  let percent_y : ℚ := (y : ℚ) / ((resolution - 1 : ℕ) : ℚ)
  localUp + ((percent_x - 1/2) * 2) • axis_a + ((percent_y - 1/2) * 2) • axis_b

/-- The local triangle index list pushed by the y/x double loop of face():
for each (x, y) with x different from resolution-1 and y different from
resolution-1, the two triangles (i, i+resolution+1, i+resolution) and
(i, i+1, i+resolution+1), i = x + y*resolution, in push order. -/
def faceTriangles (resolution : ℕ) : List ℕ :=
  (List.range resolution).flatMap fun y =>
    (List.range resolution).flatMap fun x =>
      if x ≠ resolution - 1 ∧ y ≠ resolution - 1 then
        let i := x + y * resolution
        [i, i + resolution + 1, i + resolution, i, i + 1, i + resolution + 1]
      else []

/-- One face of the cubesphere: the vertex list (each grid point projected
onto the unit sphere in raster order) paired with the local triangle list.
The source builds both lists in a single y/x loop; the vertex pushes and the
triangle pushes are independent, so the pair of comprehensions below
produces the same two lists in the same order. -/
noncomputable def face (resolution : ℕ) (localUp : Vec3) : List Vec3R × List ℕ :=
  ((List.range resolution).flatMap fun y =>
    (List.range resolution).map fun x =>
      normalizeR (pointOnUnitCube resolution localUp x y),
   faceTriangles resolution)

/-- The PlanetMesh marker struct: just a resolution. -/
structure PlanetMesh where
  resolution : ℕ

/-- The data inserted into the Mesh by From PlanetMesh for Mesh:
triangle indices, positions, normals, vertex colors. -/
structure MeshData where
  indices : List ℕ
  positions : List Vec3R
  normals : List Vec3R
  colors : List (ℝ × ℝ × ℝ × ℝ)

/-- Per-vertex debug color ((1-r)/2, (1-g)/2, (1-b)/2, 1) computed from the
position attribute. -/
noncomputable def colorOf (v : Vec3R) : ℝ × ℝ × ℝ × ℝ :=
  ((1 - v.x) / 2, (1 - v.y) / 2, (1 - v.z) / 2, 1)

/-- The From PlanetMesh for Mesh conversion: map face over the six
directions, unzip into vertex lists and triangle lists, flatten the
vertices, offset the triangle indices of each face by face_id * resolution^2 and
flatten, then install positions, normals (the same vertex list again) and
colors derived from positions.  The dbg! call in the source only logs and
is dropped. -/
noncomputable def meshFromPlanet (planet : PlanetMesh) : MeshData :=
  let vert_lists : List (List Vec3R) :=
    directions.map fun direction => (face planet.resolution direction).1
  let triangle_lists : List (List ℕ) :=
    directions.map fun direction => (face planet.resolution direction).2
  let vertices : List Vec3R := vert_lists.flatMap fun v => v
  let triangle_list : List ℕ := triangle_lists.enum.flatMap fun p =>
    p.2.map fun local_idx =>
      let num_indices := planet.resolution * planet.resolution
      local_idx + p.1 * num_indices
  { indices := triangle_list
    positions := vertices
    normals := vertices
    colors := vertices.map colorOf }

/-- Computable twin of the global index list: six copies of the local face
triangle list, the copy for face faceId offset by faceId * resolution^2. -/
def meshIndices (resolution : ℕ) : List ℕ :=
  (List.range 6).flatMap fun faceId =>
    (faceTriangles resolution).map fun local_idx =>
      local_idx + faceId * (resolution * resolution)

/-- The triangulation exactly as the spec states it: for every cell (x, y)
with x, y < resolution-1, the two triangles (i, i+resolution+1, i+resolution)
and (i, i+1, i+resolution+1), i = x + y*resolution, and nothing else. -/
def specFaceTriangles (resolution : ℕ) : List ℕ :=
  (List.range (resolution - 1)).flatMap fun y =>
    (List.range (resolution - 1)).flatMap fun x =>
      let i := x + y * resolution
      [i, i + resolution + 1, i + resolution, i, i + 1, i + resolution + 1]

/-- The PointMass component: a gravity source carrying a mass, or a
passive body that is only affected by gravity. -/
inductive PointMass where
  | HasGravity (mass : ℚ)
  | AffectedByGravity
deriving DecidableEq, Repr

/-- The global gravitational constant G = 1000.0 from main.rs. -/
def G : ℚ := 1000

/-- The Body particle: position, gravitational parameter mu, owning entity
(the opaque bevy Entity handle is modelled as a natural number). -/
structure Body where
  position : Vec3
  mu : ℚ
  entity : ℕ
deriving DecidableEq, Repr

/-- Body::new from lib.rs. -/
def Body.new (position : Vec3) (mu : ℚ) (entity : ℕ) : Body :=
  ⟨position, mu, entity⟩

/-- sync_particle_set from main.rs: overwrite the resource with a fresh
ParticleSet, then for each queried (Entity, GlobalTransform, PointMass) add
a Body whose mu is mass * G for a source and 0 for a sink.  The previous
set is passed in and discarded, mirroring the ResMut overwrite. -/
def sync_particle_set (particle_set : List Body)
    (query : List (ℕ × Vec3 × PointMass)) : List Body :=
  let fresh : List Body := []
  query.foldl (fun s q =>
    let mu : ℚ := match q.2.2 with
      | PointMass.HasGravity mass => mass * G
      | PointMass.AffectedByGravity => 0
    s ++ [Body.new q.2.1 mu q.1]) fresh

/-- The rebuild as the spec states it: one Body per tagged entity, in query
order, with gravitational parameter mass * G for a source and 0 for a
sink. -/
def specRebuild (query : List (ℕ × Vec3 × PointMass)) : List Body :=
  query.map fun q =>
    Body.new q.2.1
      (match q.2.2 with
        | PointMass.HasGravity mass => mass * G
        | PointMass.AffectedByGravity => 0) q.1

/-- Mouse button state of a bevy MouseButtonInput event. -/
inductive ButtonState where
  | Pressed
  | Released
deriving DecidableEq, Repr

/-- Mouse button of a bevy MouseButtonInput event. -/
inductive MouseButton where
  | Left
  | Right
  | Middle
deriving DecidableEq, Repr

/-- A mouse button event as consumed by place_body. -/
structure MouseButtonInput where
  button : MouseButton
  state : ButtonState
deriving DecidableEq, Repr

/-- Rigid body kind of a spawned bundle. -/
inductive RigidBody where
  | Dynamic
  | Fixed
deriving DecidableEq, Repr

/-- The components of the CircleWithGravity bundle spawned by place_body
that the simulation observes (render-only parts such as mesh and material
are not modelled). -/
structure SpawnedBall where
  transform : Vec3
  velocity : ℚ × ℚ
  mass : ℚ
  rigidbody : RigidBody
  point_mass : PointMass
deriving DecidableEq, Repr

/-- The GolfBallSettings resource. -/
structure GolfBallSettings where
  position : Option Vec3
  mass : ℚ
  trail : Bool
deriving DecidableEq, Repr

/-- Default GolfBallSettings: no pending position, mass 20, no trail. -/
def GolfBallSettings.default : GolfBallSettings := ⟨none, 20, false⟩

/-- The bundle spawned on mouse release in place_body: transform at the
stored press position place_pos, linear velocity (place_pos - mouse_pos).xy(),
mass 100.0.max(1.0), dynamic rigid body, and PointMass::HasGravity with that
mass. -/
def spawnBall (place_pos mouse_pos : Vec3) : SpawnedBall :=
  let mass : ℚ := max 100 1
  { transform := place_pos
    velocity := (place_pos - mouse_pos).xy
    mass := mass
    rigidbody := RigidBody.Dynamic
    point_mass := PointMass.HasGravity mass }

/-- Processing of a single mouse button event inside the event
loop of place_body: a left press records mouse_pos as the pending position; a left
release takes the pending position, if any, and spawns a ball; other
buttons are ignored. -/
def place_body_event (body_info : GolfBallSettings) (mouse_pos : Vec3)
    (event : MouseButtonInput) : GolfBallSettings × List SpawnedBall :=
  if event.button = MouseButton.Left then
    match event.state with
    | ButtonState.Pressed => ({ body_info with position := some mouse_pos }, [])
    | ButtonState.Released =>
      match body_info.position with
      | some place_pos =>
        ({ body_info with position := none }, [spawnBall place_pos mouse_pos])
      | none => (body_info, [])
  else (body_info, [])

/-- One frame of the place_body system: the world mouse position is
truncated to the plane (z set to 0), then every event of the frame is
processed in order. -/
def place_body (body_info : GolfBallSettings) (mouse_world : Vec3)
    (events : List MouseButtonInput) : GolfBallSettings × List SpawnedBall :=
  let mouse_pos : Vec3 := ⟨mouse_world.x, mouse_world.y, 0⟩
  events.foldl (fun acc event =>
    let r := place_body_event acc.1 mouse_pos event
    (r.1, acc.2 ++ r.2)) (body_info, [])

/-- A sequence of frames, each with its own world mouse position and event
batch, driven through place_body, accumulating all spawned balls. -/
def place_body_frames (body_info : GolfBallSettings)
    (frames : List (Vec3 × List MouseButtonInput)) :
    GolfBallSettings × List SpawnedBall :=
  frames.foldl (fun acc frame =>
    let r := place_body acc.1 frame.1 frame.2
    (r.1, acc.2 ++ r.2)) (body_info, [])

/-- The bevy_rapier ExternalForce component: a 2D force and a torque. -/
structure ExternalForce where
  force : ℚ × ℚ
  torque : ℚ
deriving DecidableEq, Repr

/-- An entity as seen by accelerate_particles: its ExternalForce component,
whether it carries the PointMass component (the query filter), and a stand-in
for all its remaining components. -/
structure EntityRecord where
  external_force : ExternalForce
  has_point_mass : Bool
  other : ℚ
deriving DecidableEq, Repr

/-- One iteration of the accelerate_particles loop: look up body.entity in
the query (an entity matches when present and carrying PointMass) and
overwrite only the force field of its ExternalForce with gravity.xy(). -/
def applyGravity (world : List (ℕ × EntityRecord)) (entity : ℕ)
    (gravity : Vec3) : List (ℕ × EntityRecord) :=
  world.map fun p =>
    if p.1 = entity ∧ p.2.has_point_mass then
      (p.1, { p.2 with
        external_force := { force := gravity.xy,
                            torque := p.2.external_force.torque } })
    else p

/-- accelerate_particles from main.rs: iterate over the (body, gravity)
result pairs of the particle set and apply each to the world. -/
def accelerate_particles (result : List (Body × Vec3))
    (world : List (ℕ × EntityRecord)) : List (ℕ × EntityRecord) :=
  result.foldl (fun w r => applyGravity w r.1.entity r.2) world

/-- The effect of a single (body, gravity) result pair on a single world
entry: exactly the body of the map inside applyGravity. -/
def applyOne (r : Body × Vec3) (q : ℕ × EntityRecord) : ℕ × EntityRecord :=
  if q.1 = r.1.entity ∧ q.2.has_point_mass then
    (q.1, { q.2 with
      external_force := { force := r.2.xy,
                          torque := q.2.external_force.torque } })
  else q

/-- The effect of the whole result list on a single world entry. -/
def applyResultsToRecord (result : List (Body × Vec3))
    (p : ℕ × EntityRecord) : ℕ × EntityRecord :=
  result.foldl (fun q r => applyOne r q) p

/-- Concrete world for the frame-effect witness: entity 0 carries PointMass,
entity 1 does not. -/
def wWorld : List (ℕ × EntityRecord) :=
  [(0, ⟨⟨(1, 2), 7⟩, true, 9⟩), (1, ⟨⟨(3, 4), 8⟩, false, 11⟩)]

/-- Concrete result list for the frame-effect witness: one gravity vector
for entity 0. -/
def wResult : List (Body × Vec3) :=
  [(Body.new ⟨0, 0, 0⟩ 0 0, ⟨5, 6, 7⟩)]

/-- Modelled from the spec: the N-body acceleration computation
(GravityField.compute) lives in the external particular crate and is not
under src.  A body in that computation: position, gravitational parameter
mu, owning entity. -/
structure BodyR where
  position : EuclideanSpace ℝ (Fin 3)
  mu : ℝ
  entity : ℕ

/-- Modelled from the spec: the contribution of body c on body b is the
displacement towards c scaled by mu(c) over distance cubed, where the
squared distance is clamped from below by eps before the square root
(the minimum-distance clamp of section 7). -/
noncomputable def gravityContribution (eps : ℝ) (b c : BodyR) :
    EuclideanSpace ℝ (Fin 3) :=
  (c.mu / Real.sqrt (max (‖c.position - b.position‖ ^ 2) eps) ^ 3) •
    (c.position - b.position)

/-- Modelled from the spec: the net acceleration of body i is the sum of the
contributions of every other body of the snapshot. -/
noncomputable def computeAcceleration {n : ℕ} (eps : ℝ)
    (bodies : Fin n → BodyR) (i : Fin n) : EuclideanSpace ℝ (Fin 3) :=
  ∑ j ∈ Finset.univ.erase i, gravityContribution eps (bodies i) (bodies j)

/-- Two bodies of strength 5 at exactly the same position, for the
coincident-bodies witness. -/
noncomputable def coincidentBodies : Fin 2 → BodyR :=
  fun j => ⟨0, 5, j.val⟩

/-- Flattening a function over range (n+1) when the last element is mapped
to the empty list drops down to range n. -/
theorem flatMap_range_succ_ne {α : Type} (n : ℕ) (f : ℕ → List α) :
    ((List.range (n + 1)).flatMap fun x => if x ≠ n then f x else []) =
      (List.range n).flatMap f := by
  rw [List.range_succ, List.flatMap_append]
  have h1 : ((List.range n).flatMap fun x => if x ≠ n then f x else []) =
      (List.range n).flatMap f := by
    apply List.flatMap_congr
    intro x hx
    rw [List.mem_range] at hx
    simp [Nat.ne_of_lt hx]
  rw [h1]
  simp

/-- A double loop over range (n+1) whose body is skipped on the last row and
last column equals the double loop over range n. -/
theorem flatMap_grid_ne {α : Type} (n : ℕ) (f : ℕ → ℕ → List α) :
    ((List.range (n + 1)).flatMap fun y =>
      (List.range (n + 1)).flatMap fun x =>
        if x ≠ n ∧ y ≠ n then f x y else []) =
    ((List.range n).flatMap fun y => (List.range n).flatMap fun x => f x y) := by
  have outer : ∀ y, ((List.range (n + 1)).flatMap fun x =>
      if x ≠ n ∧ y ≠ n then f x y else []) =
      if y ≠ n then (List.range n).flatMap (fun x => f x y) else [] := by
    intro y
    by_cases hy : y = n
    · subst hy; simp
    · rw [if_pos hy]
      have hcong : ∀ x ∈ List.range (n + 1),
          (if x ≠ n ∧ y ≠ n then f x y else []) = (if x ≠ n then f x y else []) := by
        intro x _
        by_cases hx : x = n <;> simp [hx, hy]
      rw [List.flatMap_congr hcong]
      exact flatMap_range_succ_ne n (fun x => f x y)
  rw [List.flatMap_congr (fun y _ => outer y)]
  exact flatMap_range_succ_ne n _

/-- The length of a flatMap over a range whose body has constant length. -/
theorem length_flatMap_const {α : Type} (m k : ℕ) (f : ℕ → List α)
    (h : ∀ x, (f x).length = k) : ((List.range m).flatMap f).length = m * k := by
  induction m with
  | zero => simp
  | succ m ih =>
    rw [List.range_succ, List.flatMap_append, List.length_append, ih]
    simp [h m]
    ring

/-- The push loop of the source produces exactly the enumeration of
per-cell triangles stated by the spec, for any positive resolution. -/
theorem faceTriangles_eq_spec (resolution : ℕ) (h : 1 ≤ resolution) :
    faceTriangles resolution = specFaceTriangles resolution := by
  obtain ⟨n, rfl⟩ : ∃ n, resolution = n + 1 := ⟨resolution - 1, by omega⟩
  unfold faceTriangles specFaceTriangles
  simp only [Nat.add_sub_cancel]
  exact flatMap_grid_ne n _

/-- Length of the spec-side triangle enumeration. -/
theorem specFaceTriangles_length (resolution : ℕ) :
    (specFaceTriangles resolution).length =
      (resolution - 1) * ((resolution - 1) * 6) := by
  unfold specFaceTriangles
  exact length_flatMap_const _ _ _
    (fun y => length_flatMap_const _ _ _ (fun x => rfl))

/-- The index list installed by the conversion agrees with the computable
twin meshIndices. -/
theorem meshFromPlanet_indices (resolution : ℕ) :
    (meshFromPlanet ⟨resolution⟩).indices = meshIndices resolution := rfl

/-- The global index list is six offset copies of the face triangle list. -/
theorem meshIndices_length (resolution : ℕ) :
    (meshIndices resolution).length = 6 * (faceTriangles resolution).length := by
  unfold meshIndices
  rw [length_flatMap_const 6 (faceTriangles resolution).length _
    (fun faceId => List.length_map _ _)]

/-- Each face contributes resolution * resolution vertices. -/
theorem face_fst_length (resolution : ℕ) (localUp : Vec3) :
    ((face resolution localUp).1).length = resolution * resolution := by
  unfold face
  exact length_flatMap_const _ _ _ (fun y => by simp)

/-- The concatenated vertex list has 6 * resolution^2 entries. -/
theorem meshFromPlanet_positions_length (resolution : ℕ) :
    (meshFromPlanet ⟨resolution⟩).positions.length = 6 * (resolution * resolution) := by
  unfold meshFromPlanet
  simp only [directions]
  simp [face_fst_length]
  ring

/-- Every local face triangle index is below resolution^2. -/
theorem faceTriangles_lt (resolution : ℕ) :
    ∀ i ∈ faceTriangles resolution, i < resolution * resolution := by
  intro i hi
  unfold faceTriangles at hi
  simp only [List.mem_flatMap, List.mem_range] at hi
  obtain ⟨y, hy, x, hx, hi⟩ := hi
  by_cases hc : x ≠ resolution - 1 ∧ y ≠ resolution - 1
  · rw [if_pos hc] at hi
    obtain ⟨hx1, hy1⟩ := hc
    obtain ⟨m, rfl⟩ : ∃ m, resolution = m + 2 := by
      rcases resolution with _ | r
      · omega
      · rcases r with _ | r
        · omega
        · exact ⟨r, rfl⟩
    have hx2 : x ≤ m := by omega
    have hy2 : y ≤ m := by omega
    have hmul : y * (m + 2) ≤ m * (m + 2) := Nat.mul_le_mul_right _ hy2
    have hbound : x + y * (m + 2) + (m + 2) + 1 < (m + 2) * (m + 2) := by nlinarith
    simp only [List.mem_cons, List.not_mem_nil, or_false] at hi
    rcases hi with rfl | rfl | rfl | rfl | rfl | rfl <;> linarith
  · rw [if_neg hc] at hi
    simp at hi

/-- Every global index is below the total vertex count 6 * resolution^2. -/
theorem meshIndices_lt (resolution : ℕ) :
    ∀ idx ∈ meshIndices resolution, idx < 6 * (resolution * resolution) := by
  intro idx h
  unfold meshIndices at h
  simp only [List.mem_flatMap, List.mem_range, List.mem_map] at h
  obtain ⟨faceId, hf, i, hi, rfl⟩ := h
  have h1 := faceTriangles_lt resolution i hi
  have h2 : faceId * (resolution * resolution) ≤ 5 * (resolution * resolution) :=
    Nat.mul_le_mul_right _ (by omega)
  linarith

/-- The local index resolution^2 - 1 really occurs in a face triangle list. -/
theorem faceTriangles_max_mem (resolution : ℕ) (h : 2 ≤ resolution) :
    resolution * resolution - 1 ∈ faceTriangles resolution := by
  obtain ⟨m, rfl⟩ : ∃ m, resolution = m + 2 := ⟨resolution - 2, by omega⟩
  unfold faceTriangles
  simp only [List.mem_flatMap, List.mem_range]
  refine ⟨m, by omega, m, by omega, ?_⟩
  rw [if_pos ⟨by omega, by omega⟩]
  simp only [List.mem_cons, List.not_mem_nil, or_false]
  right; left
  rw [Nat.sub_eq_iff_eq_add (by nlinarith)]
  ring

/-- C3: for every resolution at least 2, the triangle index list of a face
contains, for exactly each cell (x, y) with x, y below resolution-1, the two
triangles (i, i+resolution+1, i+resolution) and (i, i+1, i+resolution+1)
with i = x + y*resolution, and nothing else; consequently the concatenated
index count of the concatenated mesh equals 6 * (resolution-1)^2 * 6. -/
theorem faceTriangles_exact (resolution : ℕ) (h : 2 ≤ resolution) :
    faceTriangles resolution = specFaceTriangles resolution ∧
    (meshFromPlanet ⟨resolution⟩).indices.length = 6 * (resolution - 1) ^ 2 * 6 := by
  refine ⟨faceTriangles_eq_spec _ (by omega), ?_⟩
  rw [meshFromPlanet_indices, meshIndices_length, faceTriangles_eq_spec _ (by omega),
    specFaceTriangles_length]
  ring

/-- Witness for C3 at resolution 2. -/
theorem faceTriangles_exact_witness :
    2 ≤ 2 ∧ (faceTriangles 2 = specFaceTriangles 2 ∧
      (meshFromPlanet ⟨2⟩).indices.length = 6 * (2 - 1) ^ 2 * 6) :=
  ⟨by decide, faceTriangles_exact 2 (by decide)⟩

/-- C4: for every resolution at least 2, the global triangle list of the mesh is
the concatenation of the six local lists offset by face_ordinal *
resolution^2; every global index is strictly below the vertex count
6 * resolution^2; face 0 attains the maximal local index resolution^2 - 1,
and every index of the offset copy for face 1 is at least resolution^2. -/
theorem mesh_indices_bounds (resolution : ℕ) (h : 2 ≤ resolution) :
    (meshFromPlanet ⟨resolution⟩).indices =
      ((List.range 6).flatMap fun faceId =>
        (faceTriangles resolution).map fun local_idx =>
          local_idx + faceId * (resolution * resolution)) ∧
    (∀ i ∈ faceTriangles resolution, i < resolution * resolution) ∧
    (∀ idx ∈ (meshFromPlanet ⟨resolution⟩).indices,
      idx < 6 * (resolution * resolution)) ∧
    resolution * resolution - 1 ∈ faceTriangles resolution ∧
    (∀ idx ∈ (faceTriangles resolution).map
        (fun local_idx => local_idx + 1 * (resolution * resolution)),
      resolution * resolution ≤ idx) := by
  refine ⟨meshFromPlanet_indices resolution, faceTriangles_lt resolution, ?_,
    faceTriangles_max_mem resolution h, ?_⟩
  · rw [meshFromPlanet_indices]
    exact meshIndices_lt resolution
  · intro idx hidx
    simp only [List.mem_map] at hidx
    obtain ⟨i, hi, rfl⟩ := hidx
    simp only [one_mul]
    exact Nat.le_add_left _ _

/-- Witness for C4 at resolution 2. -/
theorem mesh_indices_bounds_witness :
    2 ≤ 2 ∧
    ((meshFromPlanet ⟨2⟩).indices =
      ((List.range 6).flatMap fun faceId =>
        (faceTriangles 2).map fun local_idx => local_idx + faceId * (2 * 2)) ∧
    (∀ i ∈ faceTriangles 2, i < 2 * 2) ∧
    (∀ idx ∈ (meshFromPlanet ⟨2⟩).indices, idx < 6 * (2 * 2)) ∧
    2 * 2 - 1 ∈ faceTriangles 2 ∧
    (∀ idx ∈ (faceTriangles 2).map (fun local_idx => local_idx + 1 * (2 * 2)),
      2 * 2 ≤ idx)) :=
  ⟨by decide, mesh_indices_bounds 2 (by decide)⟩

/-- C9: generating the mesh at resolution 2 yields exactly 24 vertices and
36 triangle indices, that is 12 triangles. -/
theorem mesh_res2_counts :
    (meshFromPlanet ⟨2⟩).positions.length = 24 ∧
    (meshFromPlanet ⟨2⟩).indices.length = 36 := by
  constructor
  · rw [meshFromPlanet_positions_length]
  · rw [meshFromPlanet_indices]
    decide

/-- C1 counterexample: at resolution 1 (below the minimum of 2 set by the spec) the
conversion From PlanetMesh for Mesh does not fail; it silently returns a
degenerate mesh with an empty triangle list and six vertices. -/
theorem planetMesh_res1_degenerate :
    (meshFromPlanet ⟨1⟩).indices = [] ∧
    (meshFromPlanet ⟨1⟩).positions.length = 6 := by
  constructor
  · rw [meshFromPlanet_indices]
    decide
  · rw [meshFromPlanet_positions_length]

/-- C1 amended: the conversion has no failure path (its result type carries
no error); at resolution 1 it silently returns a degenerate mesh with no
triangles and six vertices, normals and colors (one per face). -/
theorem planetMesh_res1_silent :
    (meshFromPlanet ⟨1⟩).indices.length = 0 ∧
    (meshFromPlanet ⟨1⟩).positions.length = 6 ∧
    (meshFromPlanet ⟨1⟩).normals.length = 6 ∧
    (meshFromPlanet ⟨1⟩).colors.length = 6 := by
  have hpos : (meshFromPlanet ⟨1⟩).positions.length = 6 :=
    meshFromPlanet_positions_length 1
  refine ⟨?_, hpos, ?_, ?_⟩
  · rw [meshFromPlanet_indices]
    decide
  · exact hpos
  · show ((meshFromPlanet ⟨1⟩).positions.map colorOf).length = 6
    rw [List.length_map]
    exact hpos

/-- Componentwise description of Vec3 addition. -/
theorem Vec3.add_def (v w : Vec3) : v + w = ⟨v.x + w.x, v.y + w.y, v.z + w.z⟩ := rfl

/-- Componentwise description of rational scaling of a Vec3. -/
theorem Vec3.smul_def (a : ℚ) (v : Vec3) : a • v = ⟨a * v.x, a * v.y, a * v.z⟩ := rfl

/-- Componentwise description of Vec3 subtraction. -/
theorem Vec3.sub_def (v w : Vec3) : v - w = ⟨v.x - w.x, v.y - w.y, v.z - w.z⟩ := rfl

/-- Every cube-face grid point for one of the six face directions has
squared length at least 1: its coordinate along the face normal is 1 or -1
and the two tangential offsets only add nonnegative squares. -/
theorem one_le_sqLen_pointOnUnitCube (resolution : ℕ) (localUp : Vec3)
    (hd : localUp ∈ directions) (x y : ℕ) :
    1 ≤ Vec3.sqLen (pointOnUnitCube resolution localUp x y) := by
  set s : ℚ := ((x : ℚ) / ((resolution - 1 : ℕ) : ℚ) - 1/2) * 2 with hs
  set t : ℚ := ((y : ℚ) / ((resolution - 1 : ℕ) : ℚ) - 1/2) * 2 with ht
  simp only [directions, List.mem_cons, List.not_mem_nil, or_false] at hd
  rcases hd with rfl | rfl | rfl | rfl | rfl | rfl <;>
    · simp only [pointOnUnitCube, Vec3.sqLen, Vec3.yzx, Vec3.cross, Vec3.add_def,
        Vec3.smul_def, Vec3.UnitY, Vec3.NegY, Vec3.NegX, Vec3.UnitX, Vec3.UnitZ,
        Vec3.NegZ, ← hs, ← ht]
      nlinarith [mul_self_nonneg s, mul_self_nonneg t]

/-- Normalizing a vector of positive squared length yields a vector of
Euclidean length exactly 1. -/
theorem lenR_normalizeR (v : Vec3) (h : 0 < Vec3.sqLen v) :
    lenR (normalizeR v) = 1 := by
  have hS : (0 : ℝ) < ((Vec3.sqLen v : ℚ) : ℝ) := by exact_mod_cast h
  have hL : (0 : ℝ) < Real.sqrt ((Vec3.sqLen v : ℚ) : ℝ) := Real.sqrt_pos.mpr hS
  have hL2 : Real.sqrt ((Vec3.sqLen v : ℚ) : ℝ) ^ 2 = ((Vec3.sqLen v : ℚ) : ℝ) :=
    Real.sq_sqrt hS.le
  have hsum : ((v.x : ℝ)) ^ 2 + ((v.y : ℝ)) ^ 2 + ((v.z : ℝ)) ^ 2 =
      ((Vec3.sqLen v : ℚ) : ℝ) := by
    unfold Vec3.sqLen
    push_cast
    ring
  unfold lenR normalizeR
  rw [div_pow, div_pow, div_pow, div_add_div_same, div_add_div_same, hL2, hsum,
    div_self hS.ne', Real.sqrt_one]

/-- C7: for every resolution at least 2, every vertex position of the
generated mesh has Euclidean length exactly 1 (the grid point on the cube
face is normalized onto the unit sphere). -/
theorem mesh_vertices_unit_length (resolution : ℕ) (h : 2 ≤ resolution) :
    ∀ v ∈ (meshFromPlanet ⟨resolution⟩).positions, lenR v = 1 := by
  intro v hv
  have hv2 : v ∈ (directions.map fun direction =>
      (face resolution direction).1).flatMap (fun l => l) := hv
  simp only [List.mem_flatMap, List.mem_map] at hv2
  obtain ⟨l, ⟨direction, hdir, rfl⟩, hvl⟩ := hv2
  unfold face at hvl
  simp only [List.mem_flatMap, List.mem_map, List.mem_range] at hvl
  obtain ⟨y, hy, x, hx, rfl⟩ := hvl
  exact lenR_normalizeR _
    (lt_of_lt_of_le one_pos (one_le_sqLen_pointOnUnitCube resolution direction hdir x y))

/-- Witness for C7: the very first vertex of the resolution-2 mesh, the
projection of the cube point (-1, 1, 1), has length 1. -/
theorem mesh_vertices_unit_length_witness :
    lenR (normalizeR (pointOnUnitCube 2 Vec3.UnitY 0 0)) = 1 := by
  apply mesh_vertices_unit_length 2 (by decide)
  show normalizeR (pointOnUnitCube 2 Vec3.UnitY 0 0) ∈
    ((directions.map fun direction => (face 2 direction).1).flatMap fun l => l)
  simp only [List.mem_flatMap, List.mem_map]
  refine ⟨(face 2 Vec3.UnitY).1, ⟨Vec3.UnitY, by simp [directions], rfl⟩, ?_⟩
  unfold face
  simp only [List.mem_flatMap, List.mem_map, List.mem_range]
  exact ⟨0, by decide, 0, by decide, rfl⟩

/-- C8: the normal attribute installed by the conversion is the very same
vertex list as the position attribute (the source inserts vertices.clone()
for both). -/
theorem mesh_normals_eq_positions (resolution : ℕ) :
    (meshFromPlanet ⟨resolution⟩).normals = (meshFromPlanet ⟨resolution⟩).positions :=
  rfl

/-- The add-one-Body fold of sync_particle_set, from any accumulator,
appends the spec-side rebuild of the query. -/
theorem sync_particle_set_go (query : List (ℕ × Vec3 × PointMass))
    (acc : List Body) :
    (query.foldl (fun s q =>
      let mu : ℚ := match q.2.2 with
        | PointMass.HasGravity mass => mass * G
        | PointMass.AffectedByGravity => 0
      s ++ [Body.new q.2.1 mu q.1]) acc) = acc ++ specRebuild query := by
  induction query generalizing acc with
  | nil => simp [specRebuild]
  | cons q l ih => simp [specRebuild, ih, List.map_cons]

/-- C5: sync_particle_set discards the previous particle set (the result
does not depend on it) and produces exactly one Body per tagged entity, in
query order, where a source of mass m gets mu = m * G and a sink gets
mu = 0 (the content of specRebuild). -/
theorem sync_particle_set_rebuild (prev prev2 : List Body)
    (query : List (ℕ × Vec3 × PointMass)) :
    sync_particle_set prev query = specRebuild query ∧
    sync_particle_set prev query = sync_particle_set prev2 query ∧
    (sync_particle_set prev query).length = query.length := by
  have h : sync_particle_set prev query = specRebuild query := by
    unfold sync_particle_set
    simpa using sync_particle_set_go query []
  have h2 : sync_particle_set prev2 query = specRebuild query := by
    unfold sync_particle_set
    simpa using sync_particle_set_go query []
  refine ⟨h, h.trans h2.symm, ?_⟩
  rw [h]
  unfold specRebuild
  exact List.length_map _ _

/-- C2 counterexample: a left press at (3, 4, 0) followed by a left release
at (0, 0, 0) spawns one ball at the press position (3, 4, 0) — not the
release position — and tags it PointMass.HasGravity 100, a gravity source,
not a pull-free sink. -/
theorem place_body_counterexample :
    (place_body_frames GolfBallSettings.default
      [(⟨3, 4, 0⟩, [⟨MouseButton.Left, ButtonState.Pressed⟩]),
       (⟨0, 0, 0⟩, [⟨MouseButton.Left, ButtonState.Released⟩])]).2 =
      [{ transform := ⟨3, 4, 0⟩, velocity := (3, 4), mass := 100,
         rigidbody := RigidBody.Dynamic,
         point_mass := PointMass.HasGravity 100 }] ∧
    Vec3.mk 3 4 0 ≠ Vec3.mk 0 0 0 ∧
    PointMass.HasGravity 100 ≠ PointMass.AffectedByGravity := by
  refine ⟨?_, by decide, by decide⟩
  have hmax : max (100 : ℚ) 1 = 100 := by norm_num
  simp [place_body_frames, place_body, place_body_event, spawnBall,
    GolfBallSettings.default, Vec3.sub_def, Vec3.xy, hmax]

/-- C2 amended: for every press position P and release position R, a left
press at P followed by a left release at R spawns exactly one ball: a
dynamic rigid body at the press position (P with z truncated to 0), with
linear velocity (P - R).xy, mass 100, and the source tag
PointMass.HasGravity 100. -/
theorem place_body_press_release (press release : Vec3) :
    (place_body_frames GolfBallSettings.default
      [(press, [⟨MouseButton.Left, ButtonState.Pressed⟩]),
       (release, [⟨MouseButton.Left, ButtonState.Released⟩])]).2 =
      [{ transform := ⟨press.x, press.y, 0⟩,
         velocity := (press.x - release.x, press.y - release.y),
         mass := 100,
         rigidbody := RigidBody.Dynamic,
         point_mass := PointMass.HasGravity 100 }] := by
  have hmax : max (100 : ℚ) 1 = 100 := by norm_num
  simp [place_body_frames, place_body, place_body_event, spawnBall,
    GolfBallSettings.default, Vec3.sub_def, Vec3.xy, hmax]

/-- One loop iteration of accelerate_particles is applyOne mapped over the
world. -/
theorem applyGravity_eq_map (world : List (ℕ × EntityRecord)) (r : Body × Vec3) :
    applyGravity world r.1.entity r.2 = world.map (applyOne r) := rfl

/-- accelerate_particles acts on each world entry independently. -/
theorem accelerate_particles_eq_map (result : List (Body × Vec3))
    (world : List (ℕ × EntityRecord)) :
    accelerate_particles result world = world.map (applyResultsToRecord result) := by
  induction result generalizing world with
  | nil =>
    show world = world.map (applyResultsToRecord [])
    have hid : applyResultsToRecord ([] : List (Body × Vec3)) = fun p => p := rfl
    rw [hid]
    simp
  | cons r rs ih =>
    show accelerate_particles rs (applyGravity world r.1.entity r.2) =
      world.map (applyResultsToRecord (r :: rs))
    rw [ih, applyGravity_eq_map, List.map_map]
    rfl

/-- applyOne never changes the entity id, the PointMass marker, the other
components or the torque. -/
theorem applyOne_preserves (r : Body × Vec3) (q : ℕ × EntityRecord) :
    (applyOne r q).1 = q.1 ∧
    (applyOne r q).2.has_point_mass = q.2.has_point_mass ∧
    (applyOne r q).2.other = q.2.other ∧
    (applyOne r q).2.external_force.torque = q.2.external_force.torque := by
  unfold applyOne
  split <;> exact ⟨rfl, rfl, rfl, rfl⟩

/-- applyOne leaves an entry alone when it has no PointMass or a different
entity id. -/
theorem applyOne_skip (r : Body × Vec3) (q : ℕ × EntityRecord)
    (h : q.2.has_point_mass = false ∨ q.1 ≠ r.1.entity) : applyOne r q = q := by
  unfold applyOne
  rw [if_neg]
  rintro ⟨h1, h2⟩
  rcases h with h | h
  · rw [h] at h2
    exact absurd h2 (by decide)
  · exact h h1

/-- applyResultsToRecord never changes the entity id, the PointMass marker,
the other components or the torque. -/
theorem applyResultsToRecord_preserves (result : List (Body × Vec3))
    (p : ℕ × EntityRecord) :
    (applyResultsToRecord result p).1 = p.1 ∧
    (applyResultsToRecord result p).2.has_point_mass = p.2.has_point_mass ∧
    (applyResultsToRecord result p).2.other = p.2.other ∧
    (applyResultsToRecord result p).2.external_force.torque =
      p.2.external_force.torque := by
  induction result generalizing p with
  | nil => exact ⟨rfl, rfl, rfl, rfl⟩
  | cons r rs ih =>
    have hstep : applyResultsToRecord (r :: rs) p =
        applyResultsToRecord rs (applyOne r p) := rfl
    obtain ⟨e1, e2, e3, e4⟩ := applyOne_preserves r p
    obtain ⟨f1, f2, f3, f4⟩ := ih (applyOne r p)
    rw [hstep]
    exact ⟨f1.trans e1, f2.trans e2, f3.trans e3, f4.trans e4⟩

/-- applyResultsToRecord leaves an entry alone when it has no PointMass or
its entity id occurs in no result pair. -/
theorem applyResultsToRecord_skip (result : List (Body × Vec3))
    (p : ℕ × EntityRecord)
    (h : p.2.has_point_mass = false ∨ p.1 ∉ result.map (fun r => r.1.entity)) :
    applyResultsToRecord result p = p := by
  induction result with
  | nil => rfl
  | cons r rs ih =>
    have hnot : p.1 ≠ r.1.entity ∨ p.2.has_point_mass = false := by
      rcases h with h | h
      · exact Or.inr h
      · simp only [List.map_cons, List.mem_cons] at h
        push_neg at h
        exact Or.inl h.1
    have hskip : applyOne r p = p := by
      apply applyOne_skip
      rcases hnot with h1 | h1
      · exact Or.inr h1
      · exact Or.inl h1
    have hrest : p.2.has_point_mass = false ∨ p.1 ∉ rs.map (fun r => r.1.entity) := by
      rcases h with h | h
      · exact Or.inl h
      · simp only [List.map_cons, List.mem_cons] at h
        push_neg at h
        exact Or.inr h.2
    show applyResultsToRecord rs (applyOne r p) = p
    rw [hskip]
    exact ih hrest

/-- When an entity with PointMass has exactly one gravity result, its force
component ends up as the xy projection of that gravity vector. -/
theorem applyResultsToRecord_force (result : List (Body × Vec3))
    (p : ℕ × EntityRecord) (g : Vec3)
    (hpm : p.2.has_point_mass = true)
    (hfilter : (result.filter (fun r => r.1.entity = p.1)).map (fun r => r.2) = [g]) :
    (applyResultsToRecord result p).2.external_force.force = g.xy := by
  induction result generalizing p with
  | nil => simp at hfilter
  | cons r rs ih =>
    by_cases he : r.1.entity = p.1
    · rw [List.filter_cons_of_pos (by simpa using he)] at hfilter
      simp only [List.map_cons, List.cons.injEq] at hfilter
      obtain ⟨hg, hnil⟩ := hfilter
      have hnil2 : rs.filter (fun r => r.1.entity = p.1) = [] :=
        List.map_eq_nil_iff.mp hnil
      have hcond : p.1 = r.1.entity ∧ p.2.has_point_mass = true := ⟨he.symm, hpm⟩
      have hq : applyOne r p =
          (p.1, { p.2 with
            external_force := { force := r.2.xy,
                                torque := p.2.external_force.torque } }) := by
        unfold applyOne
        rw [if_pos]
        exact ⟨he.symm, hpm⟩
      have hmem : (applyOne r p).1 ∉ rs.map (fun r => r.1.entity) := by
        rw [hq]
        intro hc
        simp only [List.mem_map] at hc
        obtain ⟨r2, hr2, hr2e⟩ := hc
        have : r2 ∈ rs.filter (fun r => r.1.entity = p.1) :=
          List.mem_filter.mpr ⟨hr2, by simpa using hr2e⟩
        rw [hnil2] at this
        simp at this
      show (applyResultsToRecord rs (applyOne r p)).2.external_force.force = g.xy
      rw [applyResultsToRecord_skip rs _ (Or.inr hmem), hq, hg]
    · rw [List.filter_cons_of_neg (by simpa using he)] at hfilter
      have hskip : applyOne r p = p :=
        applyOne_skip r p (Or.inr (fun hh => he hh.symm))
      show (applyResultsToRecord rs (applyOne r p)).2.external_force.force = g.xy
      rw [hskip]
      exact ih p hpm hfilter

/-- C10: applying the gravity results modifies only the force component of
the ExternalForce of each matched entity (set to the xy projection of its
computed gravity vector); entity ids, the PointMass marker, the other
components and the torque are preserved everywhere, and an entry without
PointMass or whose id occurs in no result is left entirely unchanged. -/
theorem accelerate_particles_frame_effect (result : List (Body × Vec3))
    (world : List (ℕ × EntityRecord)) :
    (accelerate_particles result world).length = world.length ∧
    ∀ i (h : i < world.length) (h2 : i < (accelerate_particles result world).length),
      ((accelerate_particles result world).get ⟨i, h2⟩).1 = (world.get ⟨i, h⟩).1 ∧
      ((accelerate_particles result world).get ⟨i, h2⟩).2.has_point_mass =
        (world.get ⟨i, h⟩).2.has_point_mass ∧
      ((accelerate_particles result world).get ⟨i, h2⟩).2.other =
        (world.get ⟨i, h⟩).2.other ∧
      ((accelerate_particles result world).get ⟨i, h2⟩).2.external_force.torque =
        (world.get ⟨i, h⟩).2.external_force.torque ∧
      (((world.get ⟨i, h⟩).2.has_point_mass = false ∨
          (world.get ⟨i, h⟩).1 ∉ result.map (fun r => r.1.entity)) →
        (accelerate_particles result world).get ⟨i, h2⟩ = world.get ⟨i, h⟩) ∧
      (∀ g : Vec3, (world.get ⟨i, h⟩).2.has_point_mass = true →
        (result.filter (fun r => r.1.entity = (world.get ⟨i, h⟩).1)).map
          (fun r => r.2) = [g] →
        ((accelerate_particles result world).get ⟨i, h2⟩).2.external_force.force =
          g.xy) := by
  have hmap := accelerate_particles_eq_map result world
  constructor
  · rw [hmap, List.length_map]
  · intro i h h2
    have hget : (accelerate_particles result world).get ⟨i, h2⟩ =
        applyResultsToRecord result (world.get ⟨i, h⟩) := by
      simp only [List.get_eq_getElem]
      simp only [hmap, List.getElem_map]
    rw [hget]
    obtain ⟨e1, e2, e3, e4⟩ := applyResultsToRecord_preserves result (world.get ⟨i, h⟩)
    refine ⟨e1, e2, e3, e4, ?_, ?_⟩
    · intro hcond
      exact applyResultsToRecord_skip result _ hcond
    · intro g hpm hfilter
      exact applyResultsToRecord_force result _ g hpm hfilter

/-- Witness for C10 on a two-entity world: entity 0 (with PointMass, one
result pair with gravity (5,6,7)) gets force (5,6) with torque kept at 7;
entity 1 (no PointMass) is entirely unchanged. -/
theorem accelerate_particles_frame_effect_witness :
    ((accelerate_particles wResult wWorld).get ⟨0, by decide⟩).2.external_force.torque =
      ((wWorld.get ⟨0, by decide⟩).2.external_force.torque) ∧
    ((accelerate_particles wResult wWorld).get ⟨0, by decide⟩).2.external_force.force =
      (Vec3.mk 5 6 7).xy ∧
    (accelerate_particles wResult wWorld).get ⟨1, by decide⟩ = wWorld.get ⟨1, by decide⟩ := by
  obtain ⟨hlen, hprop⟩ := accelerate_particles_frame_effect wResult wWorld
  obtain ⟨h1, h2, h3, h4, h5, h6⟩ := hprop 0 (by decide) (by rw [hlen]; decide)
  obtain ⟨g1, g2, g3, g4, g5, g6⟩ := hprop 1 (by decide) (by rw [hlen]; decide)
  refine ⟨h4, ?_, ?_⟩
  · exact h6 (Vec3.mk 5 6 7) (by decide) (by decide)
  · exact g5 (Or.inl (by decide))

/-- A single clamped contribution has norm at most mu / eps: the clamped
distance is at least the true distance and its square is at least eps. -/
theorem gravityContribution_le (eps : ℝ) (b c : BodyR)
    (heps : 0 < eps) (hmu : 0 ≤ c.mu) :
    ‖gravityContribution eps b c‖ ≤ c.mu / eps := by
  set d : EuclideanSpace ℝ (Fin 3) := c.position - b.position with hd
  set m2 : ℝ := max (‖d‖ ^ 2) eps with hm2
  have hm2pos : 0 < m2 := lt_of_lt_of_le heps (le_max_right _ _)
  have hs : 0 < Real.sqrt m2 := Real.sqrt_pos.mpr hm2pos
  have hs2 : Real.sqrt m2 ^ 2 = m2 := Real.sq_sqrt hm2pos.le
  have hdle : ‖d‖ ≤ Real.sqrt m2 := by
    calc ‖d‖ = Real.sqrt (‖d‖ ^ 2) := (Real.sqrt_sq (norm_nonneg d)).symm
      _ ≤ Real.sqrt m2 := Real.sqrt_le_sqrt (le_max_left _ _)
  have hquot : 0 ≤ c.mu / Real.sqrt m2 ^ 3 := div_nonneg hmu (by positivity)
  have hval : ‖gravityContribution eps b c‖ = c.mu / Real.sqrt m2 ^ 3 * ‖d‖ := by
    unfold gravityContribution
    rw [← hd, ← hm2, norm_smul, Real.norm_eq_abs, abs_of_nonneg hquot]
  rw [hval]
  calc c.mu / Real.sqrt m2 ^ 3 * ‖d‖
      ≤ c.mu / Real.sqrt m2 ^ 3 * Real.sqrt m2 :=
        mul_le_mul_of_nonneg_left hdle hquot
    _ = c.mu / m2 := by
        have h3 : Real.sqrt m2 ^ 3 = m2 * Real.sqrt m2 := by
          rw [pow_succ, hs2]
        rw [h3]
        field_simp
        ring
    _ ≤ c.mu / eps :=
        div_le_div_of_nonneg_left hmu heps (le_max_right _ _)

/-- C6: spec-modelled: with the epsilon clamp in place, the net
acceleration of any body of any snapshot (coincident bodies included) is
bounded in norm by the total gravitational parameter divided by eps, hence
finite; no division by a vanishing distance occurs. -/
theorem computeAcceleration_bounded {n : ℕ} (eps : ℝ) (bodies : Fin n → BodyR)
    (i : Fin n) (heps : 0 < eps) (hmu : ∀ j, 0 ≤ (bodies j).mu) :
    ‖computeAcceleration eps bodies i‖ ≤ (∑ j, (bodies j).mu) / eps := by
  calc ‖computeAcceleration eps bodies i‖
      ≤ ∑ j ∈ Finset.univ.erase i,
          ‖gravityContribution eps (bodies i) (bodies j)‖ := by
        unfold computeAcceleration
        exact norm_sum_le _ _
    _ ≤ ∑ j ∈ Finset.univ.erase i, (bodies j).mu / eps :=
        Finset.sum_le_sum (fun j _ => gravityContribution_le eps _ _ heps (hmu j))
    _ ≤ ∑ j, (bodies j).mu / eps :=
        Finset.sum_le_sum_of_subset_of_nonneg (Finset.erase_subset _ _)
          (fun j _ _ => div_nonneg (hmu j) heps.le)
    _ = (∑ j, (bodies j).mu) / eps := (Finset.sum_div _ _ _).symm

/-- Witness for C6: two coincident strength-5 bodies and eps = 1; the first
acceleration norm of the first body is bounded by 10. -/
theorem computeAcceleration_bounded_witness :
    (0 : ℝ) < 1 ∧ ‖computeAcceleration 1 coincidentBodies 0‖ ≤ 10 := by
  refine ⟨by norm_num, ?_⟩
  have h := computeAcceleration_bounded 1 coincidentBodies 0 (by norm_num)
    (fun j => by simp [coincidentBodies])
  have hsum : (∑ j : Fin 2, (coincidentBodies j).mu) = 10 := by
    rw [Fin.sum_univ_two]
    norm_num [coincidentBodies]
  rw [hsum] at h
  simpa using h

end SpaceGolf
